import Mathlib

/-
Verification of the boids simulation core (src/systems.rs, src/data.rs,
src/main.rs) against its natural-language specification.

Modelling conventions.
Machine f32 arithmetic is idealized as exact real arithmetic, except that
production of IEEE non-finite values (inf or NaN) is tracked explicitly:
a vector whose computation produced a non-finite component is modelled as
`none : EVec2`.  The only place in the per-tick code where a finite input
can produce a non-finite output is vecmath.vec2_normalized, which divides
by the length with no zero guard: on a zero-length input the f32 result is
[NaN, NaN] (1.0/0.0 = inf, then 0.0*inf = NaN).  That case is modelled as
`none`.  By contrast vec2_normalized_safe (systems.rs lines 75-83) guards
the zero case and returns the zero vector, so it is total on Vec2.
-/

noncomputable section

namespace Boids

/-- A 2d vector of (idealized) f32 values, vecmath.Vector2 of f32. -/
def Vec2 : Type := Real × Real

instance : Inhabited Vec2 := ⟨((0 : Real), (0 : Real))⟩

/-- vecmath.vec2_add. -/
def vec2_add (a b : Vec2) : Vec2 := (a.1 + b.1, a.2 + b.2)

/-- vecmath.vec2_sub. -/
def vec2_sub (a b : Vec2) : Vec2 := (a.1 - b.1, a.2 - b.2)

/-- vecmath.vec2_scale: each component of v multiplied by c. -/
def vec2_scale (v : Vec2) (c : Real) : Vec2 := (v.1 * c, v.2 * c)

/-- vecmath.vec2_len: the Euclidean length. -/
def vec2_len (v : Vec2) : Real := Real.sqrt (v.1 ^ 2 + v.2 ^ 2)

/-- A vector value that may be IEEE non-finite (inf or NaN); `none` marks
a vector with at least one non-finite component. -/
def EVec2 : Type := Option Vec2

/-- vecmath.vec2_normalized, which divides by the length WITHOUT a zero
guard (`vec2_scale(a, one/vec2_len(a))`).  On a zero-length input the f32
computation yields non-finite components, modelled as `none`. -/
def vec2_normalized (v : Vec2) : EVec2 :=
  if vec2_len v = 0 then none else some (vec2_scale v (1 / vec2_len v))

/-- systems.rs lines 75-83: vec2_normalized_safe, returning the zero
vector when the length is exactly zero, otherwise the components divided
by the length. -/
def vec2_normalized_safe (v : Vec2) : Vec2 :=
  if vec2_len v = 0 then ((0 : Real), (0 : Real))
  else (v.1 / vec2_len v, v.2 / vec2_len v)

/-- Addition where a non-finite operand contaminates the result, as in
IEEE f32 arithmetic. -/
def eadd (a b : EVec2) : EVec2 :=
  match a, b with
  | some u, some v => some (vec2_add u v)
  | _, _ => none

/-- Scaling by a finite constant; a non-finite vector stays non-finite
(in IEEE f32, c * NaN = NaN for every c, including c = 0). -/
def escale (c : Real) (a : EVec2) : EVec2 :=
  match a with
  | some v => some (vec2_scale v c)
  | none => none

/-- vec2_normalized applied to a possibly non-finite vector: a NaN input
stays NaN (its length compares unequal to zero, and dividing keeps NaN). -/
def enorm (a : EVec2) : EVec2 :=
  match a with
  | some v => vec2_normalized v
  | none => none

/-! Basic facts about lengths. -/

theorem vec2_len_nonneg (v : Vec2) : 0 ≤ vec2_len v := Real.sqrt_nonneg _

theorem vec2_len_eq_zero_iff (v : Vec2) :
    vec2_len v = 0 ↔ v = ((0 : Real), (0 : Real)) := by
  unfold vec2_len
  rw [show v = (v.1, v.2) from rfl]
  constructor
  · intro h
    have hsum : v.1 ^ 2 + v.2 ^ 2 = 0 := by
      have h0 : 0 ≤ v.1 ^ 2 + v.2 ^ 2 := by positivity
      have := Real.sqrt_eq_zero h0 |>.mp h
      exact this
    have h1 : v.1 ^ 2 = 0 ∧ v.2 ^ 2 = 0 := by
      constructor
      · nlinarith [sq_nonneg v.1, sq_nonneg v.2]
      · nlinarith [sq_nonneg v.1, sq_nonneg v.2]
    have e1 : v.1 = 0 := by
      have := h1.1
      exact pow_eq_zero_iff (two_ne_zero) |>.mp this
    have e2 : v.2 = 0 := by
      have := h1.2
      exact pow_eq_zero_iff (two_ne_zero) |>.mp this
    simp [e1, e2]
  · intro h
    have h1 : v.1 = 0 := congrArg Prod.fst h
    have h2 : v.2 = 0 := congrArg Prod.snd h
    simp [h1, h2]

theorem vec2_len_scale (v : Vec2) (c : Real) :
    vec2_len (vec2_scale v c) = |c| * vec2_len v := by
  unfold vec2_len vec2_scale
  have h : (v.1 * c) ^ 2 + (v.2 * c) ^ 2 = c ^ 2 * (v.1 ^ 2 + v.2 ^ 2) := by ring
  rw [h, Real.sqrt_mul (sq_nonneg c), Real.sqrt_sq_eq_abs]

theorem vec2_len_pos_of_ne (v : Vec2) (h : v ≠ ((0 : Real), (0 : Real))) :
    0 < vec2_len v := by
  rcases lt_or_eq_of_le (vec2_len_nonneg v) with hlt | heq
  · exact hlt
  · exact absurd ((vec2_len_eq_zero_iff v).mp heq.symm) h

/-- Normalizing a nonzero vector yields a unit vector. -/
theorem vec2_normalized_unit (v : Vec2) (h : v ≠ ((0 : Real), (0 : Real))) :
    ∃ u : Vec2, vec2_normalized v = some u ∧ vec2_len u = 1 := by
  have hl : 0 < vec2_len v := vec2_len_pos_of_ne v h
  refine ⟨vec2_scale v (1 / vec2_len v), ?_, ?_⟩
  · unfold vec2_normalized
    rw [if_neg (ne_of_gt hl)]
  · rw [vec2_len_scale]
    rw [abs_of_pos (by positivity)]
    field_simp

theorem vec2_normalized_zero :
    vec2_normalized (((0 : Real), (0 : Real))) = none := by
  unfold vec2_normalized
  rw [if_pos ((vec2_len_eq_zero_iff _).mpr rfl)]

/-! Configuration constants from src/main.rs.  The three force weights
ALIGNMENT_WEIGHT, COHESION_WEIGHT and SEPARATION_WEIGHT are imported by
systems.rs from the crate root but their definitions are not among the
given sources; following the spec (simulation-wide tunable constants)
they are kept as explicit real parameters Wa, Wc, Ws below. -/

/-- main.rs line 21: AGENT_COUNT = 1000. -/
def AGENT_COUNT : Nat := 1000

/-- main.rs line 24: CELL_SIZE = 100.0. -/
def CELL_SIZE : Real := 100

/-- The largest finite f32, used as the initial minimum distance in
bucket_separation (f32 MAX = (2 - 2^-23) * 2^127). -/
def F32_MAX : Real := 2 ^ 128 - 2 ^ 104

/-- cgmath.num_traits.clamp(v, mn, mx): mn if v < mn, mx if v > mx,
otherwise v. -/
def clampR (v mn mx : Real) : Real :=
  if v < mn then mn else if v > mx then mx else v

/-- Rust saturating cast of an f32 to u32 (`as u32`): negative values go
to 0, values past u32 MAX go to u32 MAX, otherwise truncation (the inputs
here are already floored). -/
def f2u32 (x : Real) : Nat :=
  if x < 0 then 0 else min (Int.toNat ⌊x⌋) (2 ^ 32 - 1)

/-- systems.rs lines 86-97: the spatial hash.  cell_x and cell_y are the
floored cell coordinates, cast to u32 (saturating); the u32 products wrap
modulo 2^32; the XOR is reduced modulo AGENT_COUNT. -/
def hash (p : Vec2) : Nat :=
  (((f2u32 ((⌊p.1 / CELL_SIZE⌋ : Int) : Real)) * 73856093 % 2 ^ 32) ^^^
    ((f2u32 ((⌊p.2 / CELL_SIZE⌋ : Int) : Real)) * 19349663 % 2 ^ 32)) % AGENT_COUNT

/-- The hash of the i-th position in the positions array. -/
def hashAt (pos : List Vec2) (i : Nat) : Nat := hash (pos.getD i default)

/-- systems.rs lines 178-191: the grid build pushes each agent index i, in
increasing order, onto the bucket keyed by the hash of its position; the
bucket for key h is therefore the ascending list of indices whose position
hashes to h. -/
def bucketOf (pos : List Vec2) (h : Nat) : List Nat :=
  (List.range pos.length).filter (fun i => hashAt pos i = h)

/-- systems.rs lines 100-107, bucket_alignment: member headings are summed
into the zero-initialized cell forward. -/
def sumHeadings (mem : List Nat) (fwds : List Vec2) : Vec2 :=
  mem.foldl (fun acc j => vec2_add acc (fwds.getD j default)) default

/-- systems.rs lines 100-107: bucket_alignment stores the UNSAFE
normalization (vec2_normalized, no zero guard) of the heading sum. -/
def bucket_alignment (mem : List Nat) (fwds : List Vec2) : EVec2 :=
  vec2_normalized (sumHeadings mem fwds)

/-- systems.rs lines 110-117: bucket_cohesion sums member positions into
the zero-initialized cell cohesion and scales by 1.0 / member count (the
buckets built by boid_system are never empty). -/
def bucket_cohesion (mem : List Nat) (pos : List Vec2) : Vec2 :=
  vec2_scale (mem.foldl (fun acc j => vec2_add acc (pos.getD j default)) default)
    (1 / (mem.length : Real))

/-- systems.rs lines 127-148, the inner loop of bucket_separation over
the neighbor list: skip the boid itself, keep the strictly smaller
distance together with the index attaining it. -/
def nearestLoop (pos : List Vec2) (i : Nat) : List Nat → Nat × Real → Nat × Real
  | [], acc => acc
  | j :: rest, acc =>
    if j = i then nearestLoop pos i rest acc
    else
      if vec2_len (vec2_sub (pos.getD i default) (pos.getD j default)) < acc.2 then
        nearestLoop pos i rest
          (j, vec2_len (vec2_sub (pos.getD i default) (pos.getD j default)))
      else nearestLoop pos i rest acc

/-- The nearest-neighbor search of bucket_separation for member i: the
accumulator starts at (nearest_index = 0, f32 MAX). -/
def nearestFold (pos : List Vec2) (i : Nat) (mem : List Nat) : Nat × Real :=
  nearestLoop pos i mem (0, F32_MAX)

/-- systems.rs lines 150-161: the separation stored for member i — the
safe normalization of (position i - position nearest), scaled by
clamp(1/min_distance, 0.01, 1000.0) unless min_distance is exactly 0. -/
def separationOf (pos : List Vec2) (mem : List Nat) (i : Nat) : Vec2 :=
  if (nearestFold pos i mem).2 ≠ 0 then
    vec2_scale
      (vec2_normalized_safe
        (vec2_sub (pos.getD i default) (pos.getD (nearestFold pos i mem).1 default)))
      (clampR (1 / (nearestFold pos i mem).2) 0.01 1000)
  else
    vec2_normalized_safe
      (vec2_sub (pos.getD i default) (pos.getD (nearestFold pos i mem).1 default))

/-- systems.rs lines 214-217: the cohesion contribution of the blend —
safe normalization of (cell centroid - agent position), scaled by
COHESION_WEIGHT. -/
def cohForce (Wc : Real) (centroid p : Vec2) : Vec2 :=
  vec2_scale (vec2_normalized_safe (vec2_sub centroid p)) Wc

/-- The per-member record of the blend loop of systems.rs lines 210-235:
alignC is the value of cell_forwards for this cell after the in-place
scaling by ALIGNMENT_WEIGHT done in this member's iteration (line
227-230), res is the blended vector, out the new heading stored at line
233 (unsafe vec2_normalized of res). -/
structure BlendRec where
  alignC : EVec2
  res : EVec2
  out : EVec2

instance : Inhabited BlendRec := ⟨⟨none, none, none⟩⟩

/-- systems.rs lines 211-234, one bucket of the apply loop: the threaded
accumulator a is the current contents of cell_forwards for this cell,
rescaled in place by Wa at every member (so later members observe an
extra factor of Wa). res follows the source order: heading, plus the
cohesion contribution, plus SEPARATION_WEIGHT times the stored
separation, plus the rescaled cell forward. -/
def blendBucketAux (pos fwds : List Vec2) (Wa Wc Ws : Real)
    (centroid : Vec2) (sep : Nat → Vec2) :
    List Nat → EVec2 → List (Nat × BlendRec)
  | [], _ => []
  | i :: rest, a =>
    (i,
      { alignC := escale Wa a
        res :=
          eadd
            (some
              (vec2_add
                (vec2_add (fwds.getD i default)
                  (cohForce Wc centroid (pos.getD i default)))
                (vec2_scale (sep i) Ws)))
            (escale Wa a)
        out :=
          enorm
            (eadd
              (some
                (vec2_add
                  (vec2_add (fwds.getD i default)
                    (cohForce Wc centroid (pos.getD i default)))
                  (vec2_scale (sep i) Ws)))
              (escale Wa a)) }) ::
      blendBucketAux pos fwds Wa Wc Ws centroid sep rest (escale Wa a)

/-- The blend records of one bucket: the cell forward starts at the
bucket alignment computed in the first pass, the centroid and separations
likewise come from the first pass over this bucket. -/
def blendBucket (pos fwds : List Vec2) (Wa Wc Ws : Real) (mem : List Nat) :
    List (Nat × BlendRec) :=
  blendBucketAux pos fwds Wa Wc Ws (bucket_cohesion mem pos)
    (separationOf pos mem) mem (bucket_alignment mem fwds)

/-- systems.rs lines 165-236, boid_system: build the buckets, compute per
bucket aggregates, then write each member's new heading.  Buckets of
distinct keys are disjoint and each write touches only the member's own
slot, so the unspecified hashbrown iteration order does not affect the
result; the model iterates keys in first-occurrence order. -/
def boid_system (pos fwds : List Vec2) (Wa Wc Ws : Real) : List EVec2 :=
  ((pos.map hash).dedup).foldl
    (fun out h =>
      (blendBucket pos fwds Wa Wc Ws (bucketOf pos h)).foldl
        (fun o p => o.set p.1 p.2.out) out)
    (fwds.map some)

/-- systems.rs lines 13-38, forward_system: each position advances by its
heading scaled by delta_time * speed.  The chunked parallel fan-out
pairs equal-size chunks of the two arrays, which is elementwise zip;
positions beyond the heading array length are left untouched. -/
def forward_system (dt speed : Real) (pos fwds : List Vec2) : List Vec2 :=
  List.zipWith (fun p f => vec2_add p (vec2_scale f (dt * speed))) pos fwds ++
    pos.drop fwds.length

/-- systems.rs lines 242-256, the per-coordinate wrap: below 0 goes to the
dimension, above the dimension goes to 0, otherwise unchanged (note the
else-if: the two branches are mutually exclusive). -/
def wrapCoord (x dim : Real) : Real :=
  if x < 0 then dim else if x > dim then 0 else x

/-- systems.rs lines 240-271, wrap_screen_system over a display of u32
width and height. -/
def wrap_screen_system (pos : List Vec2) (w h : Nat) : List Vec2 :=
  pos.map (fun p => (wrapCoord p.1 (w : Real), wrapCoord p.2 (h : Real)))

/-! Phase wrappers.  In the source each phase borrows the array it does
not write as a shared slice (boid_system: positions: &[Position];
forward_system: forwards: &[Forward]) or does not receive it at all
(wrap_screen_system), so each phase can only write its own output. -/

/-- boid_system as a step on (positions, headings): only headings are
written (positions is a shared borrow). -/
def boid_step (Wa Wc Ws : Real) (s : List Vec2 × List Vec2) :
    List Vec2 × List EVec2 :=
  (s.1, boid_system s.1 s.2 Wa Wc Ws)

/-- forward_system as a step on (positions, headings): only positions are
written (forwards is a shared borrow). -/
def forward_step (dt speed : Real) (s : List Vec2 × List Vec2) :
    List Vec2 × List Vec2 :=
  (forward_system dt speed s.1 s.2, s.2)

/-- wrap_screen_system as a step on (positions, headings): only positions
are written (headings are not even passed in). -/
def wrap_step (w h : Nat) (s : List Vec2 × List Vec2) :
    List Vec2 × List Vec2 :=
  (wrap_screen_system s.1 w h, s.2)

/-! Helper lemmas about list access. -/

theorem getD_map_of_lt (f : Vec2 → Vec2) (l : List Vec2) (i : Nat)
    (hi : i < l.length) :
    (l.map f).getD i default = f (l.getD i default) := by
  rw [List.getD_eq_getElem?_getD, List.getD_eq_getElem?_getD,
    List.getElem?_map, List.getElem?_eq_getElem hi]
  rfl

theorem zipWith_left_const {α β : Type} (l1 : List α) (l2 : List β) :
    List.zipWith (fun a _ => a) l1 l2 = l1.take l2.length := by
  induction l1 generalizing l2 with
  | nil => simp
  | cons a t ih =>
    cases l2 with
    | nil => simp
    | cons b s => simp [ih]

theorem vec2_scale_zero_mul (f : Vec2) (s : Real) :
    vec2_scale f (0 * s) = default := by
  unfold vec2_scale
  simp [Inhabited.default]

theorem vec2_add_default (p : Vec2) : vec2_add p default = p := by
  unfold vec2_add
  show (p.1 + 0, p.2 + 0) = p
  simp

/-- C6: wrap_screen_system maps each coordinate below 0 to exactly the
corresponding dimension, each coordinate above the dimension to exactly
0 (no modulo reduction), and leaves coordinates inside [0, dimension]
unchanged; the whole system is the per-coordinate wrap applied at every
index. -/
theorem wrap_screen_single_step_wrap (pos : List Vec2) (w h : Nat) (i : Nat)
    (hi : i < pos.length) :
    (wrap_screen_system pos w h).getD i default =
      (wrapCoord (pos.getD i default).1 (w : Real),
        wrapCoord (pos.getD i default).2 (h : Real))
    ∧ ∀ (x : Real) (dim : Nat),
        (x < 0 → wrapCoord x (dim : Real) = (dim : Real)) ∧
        ((dim : Real) < x → wrapCoord x (dim : Real) = 0) ∧
        (0 ≤ x → x ≤ (dim : Real) → wrapCoord x (dim : Real) = x) := by
  constructor
  · exact getD_map_of_lt _ pos i hi
  · intro x dim
    have hd : (0 : Real) ≤ (dim : Real) := Nat.cast_nonneg dim
    refine ⟨?_, ?_, ?_⟩
    · intro hx
      unfold wrapCoord
      rw [if_pos hx]
    · intro hx
      unfold wrapCoord
      rw [if_neg (by linarith), if_pos hx]
    · intro hx1 hx2
      unfold wrapCoord
      rw [if_neg (by linarith), if_neg (by linarith)]

/-- C6 witness: an agent at x = -0.5 with width 1280 wraps to exactly
1280, and an agent at x = 1280.5 wraps to exactly 0; x = 600 inside the
world is unchanged. -/
theorem wrap_screen_single_step_wrap_witness :
    wrapCoord (-0.5) ((1280 : Nat) : Real) = ((1280 : Nat) : Real) ∧
    wrapCoord 1280.5 ((1280 : Nat) : Real) = 0 ∧
    wrapCoord 600 ((1280 : Nat) : Real) = 600 := by
  have h := (wrap_screen_single_step_wrap [default] 1280 720 0 (by simp)).2
  refine ⟨(h (-0.5) 1280).1 (by norm_num),
    (h 1280.5 1280).2.1 (by norm_num),
    (h 600 1280).2.2 (by norm_num) (by norm_num)⟩

/-- C8: forward_system computes position + heading * (delta_time * speed)
for every agent independently, and with delta_time = 0 it returns the
positions unchanged. -/
theorem forward_system_integrates (dt speed : Real) (pos fwds : List Vec2) :
    (∀ i : Nat, i < pos.length → i < fwds.length →
      (forward_system dt speed pos fwds).getD i default =
        vec2_add (pos.getD i default) (vec2_scale (fwds.getD i default) (dt * speed)))
    ∧ forward_system 0 speed pos fwds = pos := by
  constructor
  · intro i hip hif
    unfold forward_system
    rw [List.getD_eq_getElem?_getD, List.getElem?_append]
    rw [if_pos (by rw [List.length_zipWith]; exact lt_min hip hif)]
    rw [List.getElem?_zipWith, List.getElem?_eq_getElem hip,
      List.getElem?_eq_getElem hif]
    rw [List.getD_eq_getElem?_getD, List.getD_eq_getElem?_getD,
      List.getElem?_eq_getElem hip, List.getElem?_eq_getElem hif]
    rfl
  · unfold forward_system
    have hz : List.zipWith
        (fun p f => vec2_add p (vec2_scale f (0 * speed))) pos fwds =
        List.zipWith (fun p (_ : Vec2) => p) pos fwds := by
      induction pos generalizing fwds with
      | nil => simp
      | cons a t ih =>
        cases fwds with
        | nil => simp
        | cons b s =>
          simp only [List.zipWith_cons_cons, ih]
          rw [vec2_scale_zero_mul, vec2_add_default]
    rw [hz, zipWith_left_const, List.take_append_drop]

/-- C8 witness: at index 0 with dt = 2, speed = 3, the position advances
by the heading scaled by 6; with dt = 0 positions are returned as given. -/
theorem forward_system_integrates_witness :
    (forward_system 2 3 [((1 : Real), (2 : Real))] [((1 : Real), (0 : Real))]).getD 0 default =
      vec2_add (((1 : Real), (2 : Real)))
        (vec2_scale (((1 : Real), (0 : Real))) (2 * 3)) ∧
    forward_system 0 5 [((1 : Real), (2 : Real))] [((3 : Real), (4 : Real))] =
      [((1 : Real), (2 : Real))] := by
  constructor
  · have h := (forward_system_integrates 2 3
      [((1 : Real), (2 : Real))] [((1 : Real), (0 : Real))]).1 0
      (by simp) (by simp)
    simpa using h
  · exact (forward_system_integrates 0 5
      [((1 : Real), (2 : Real))] [((3 : Real), (4 : Real))]).2

/-- C9: each tick phase writes only its own outputs — boid_system leaves
the positions array unchanged (it borrows it as a shared slice),
forward_system and wrap_screen_system leave the headings array unchanged
(a shared borrow, or not passed at all). -/
theorem phase_frame_effects (Wa Wc Ws dt speed : Real) (w h : Nat)
    (s : List Vec2 × List Vec2) :
    (boid_step Wa Wc Ws s).1 = s.1 ∧
    (forward_step dt speed s).2 = s.2 ∧
    (wrap_step w h s).2 = s.2 :=
  ⟨rfl, rfl, rfl⟩

theorem default_vec2 : (default : Vec2) = ((0 : Real), (0 : Real)) := rfl

theorem vec2_len_axis (a : Real) (h : 0 ≤ a) :
    vec2_len ((a, (0 : Real))) = a := by
  unfold vec2_len
  rw [show (a, (0 : Real)).1 ^ 2 + (a, (0 : Real)).2 ^ 2 = a ^ 2 by norm_num]
  rw [Real.sqrt_sq h]

/-- Positions with both coordinates in [0, 100) live in cell (0, 0),
whose hash is 0. -/
theorem hash_eq_zero_of_small (p : Vec2) (h1 : 0 ≤ p.1) (h2 : p.1 < 100)
    (h3 : 0 ≤ p.2) (h4 : p.2 < 100) : hash p = 0 := by
  have e1 : ⌊p.1 / CELL_SIZE⌋ = 0 := by
    rw [Int.floor_eq_zero_iff]
    unfold CELL_SIZE
    constructor
    · positivity
    · rw [div_lt_one (by norm_num)]; linarith
  have e2 : ⌊p.2 / CELL_SIZE⌋ = 0 := by
    rw [Int.floor_eq_zero_iff]
    unfold CELL_SIZE
    constructor
    · positivity
    · rw [div_lt_one (by norm_num)]; linarith
  have hf : f2u32 (((0 : Int) : Real)) = 0 := by
    unfold f2u32
    rw [if_neg (by norm_num)]
    norm_num
  unfold hash
  rw [e1, e2, hf]
  simp only [Nat.zero_mul, Nat.zero_mod, Nat.zero_xor]

/-- C3 counterexample: two members with exactly opposite headings give a
zero heading sum, and bucket_alignment then yields a non-finite (NaN)
vector, modelled `none` — not the zero vector claimed by the spec
(systems.rs line 106 uses vec2_normalized, not vec2_normalized_safe). -/
theorem bucket_alignment_zero_sum_counterexample :
    sumHeadings [0, 1] [((1 : Real), (0 : Real)), ((-1 : Real), (0 : Real))] =
      ((0 : Real), (0 : Real)) ∧
    bucket_alignment [0, 1] [((1 : Real), (0 : Real)), ((-1 : Real), (0 : Real))] = none ∧
    (none : EVec2) ≠ some (((0 : Real), (0 : Real))) := by
  have hsum : sumHeadings [0, 1] [((1 : Real), (0 : Real)), ((-1 : Real), (0 : Real))] =
      ((0 : Real), (0 : Real)) := by
    simp only [sumHeadings, List.foldl, List.getD_cons_zero, List.getD_cons_succ,
      vec2_add, default_vec2]
    norm_num
  refine ⟨hsum, ?_, by simp⟩
  unfold bucket_alignment
  rw [hsum, vec2_normalized_zero]

/-- C3 amended: bucket_alignment equals the UNSAFE normalization of the
heading sum — a unit vector when the sum is nonzero, and a non-finite
(NaN) vector, not the zero vector, when the sum is exactly zero. -/
theorem bucket_alignment_unsafe_normalization (mem : List Nat) (fwds : List Vec2) :
    (sumHeadings mem fwds = ((0 : Real), (0 : Real)) →
      bucket_alignment mem fwds = none) ∧
    (sumHeadings mem fwds ≠ ((0 : Real), (0 : Real)) →
      ∃ u : Vec2, bucket_alignment mem fwds = some u ∧ vec2_len u = 1) := by
  constructor
  · intro h
    unfold bucket_alignment
    rw [h, vec2_normalized_zero]
  · intro h
    exact vec2_normalized_unit _ h

/-- C3 witness: a single member with heading (0, 1) gives a unit
alignment; two members with headings (2, 0) and (-2, 0) give a zero sum
and a non-finite alignment. -/
theorem bucket_alignment_unsafe_normalization_witness :
    (∃ u : Vec2, bucket_alignment [0] [((0 : Real), (1 : Real))] = some u ∧
      vec2_len u = 1) ∧
    bucket_alignment [0, 1] [((2 : Real), (0 : Real)), ((-2 : Real), (0 : Real))] = none := by
  constructor
  · refine (bucket_alignment_unsafe_normalization [0] [((0 : Real), (1 : Real))]).2 ?_
    simp only [sumHeadings, List.foldl, List.getD_cons_zero, vec2_add, default_vec2]
    intro h
    have := congrArg Prod.snd h
    norm_num at this
  · refine (bucket_alignment_unsafe_normalization _ _).1 ?_
    simp only [sumHeadings, List.foldl, List.getD_cons_zero, List.getD_cons_succ,
      vec2_add, default_vec2]
    norm_num

/-- Modelled from the spec: the cohesion force formula of section 4.2,
`dist == 0 ? 0 : scale(normalize(cohesionVec), clamp(1/dist, min, max)) *
COHESION_WEIGHT`, which scales the unit vector toward the centroid by a
clamped inverse distance.  This definition exists only to be compared
with cohForce, the force the code actually computes. -/
def cohForceSpec (Wc mn mx : Real) (centroid p : Vec2) : Vec2 :=
  if vec2_len (vec2_sub centroid p) = 0 then ((0 : Real), (0 : Real))
  else
    vec2_scale (vec2_normalized_safe (vec2_sub centroid p))
      (clampR (1 / vec2_len (vec2_sub centroid p)) mn mx * Wc)

/-- C5 counterexample: with agents at (0,0) and (4,0) in the same cell,
the centroid is (2,0) and the distance from agent 0 is 2; the code adds
cohesion force (1, 0) (the unit vector times the weight, here 1), while
the spec formula with its example clamp bounds 0.01 and 1000 would give
(1/2, 0).  The clamp(1/dist) factor exists only in separation, not in
the cohesion blend (systems.rs lines 214-218). -/
theorem cohesion_clamp_counterexample :
    bucketOf [((0 : Real), (0 : Real)), ((4 : Real), (0 : Real))] 0 = [0, 1] ∧
    bucket_cohesion [0, 1] [((0 : Real), (0 : Real)), ((4 : Real), (0 : Real))] =
      ((2 : Real), (0 : Real)) ∧
    cohForce 1 ((2 : Real), (0 : Real)) ((0 : Real), (0 : Real)) = ((1 : Real), (0 : Real)) ∧
    cohForceSpec 1 0.01 1000 ((2 : Real), (0 : Real)) ((0 : Real), (0 : Real)) =
      ((1 / 2 : Real), (0 : Real)) ∧
    ((1 : Real), (0 : Real)) ≠ ((1 / 2 : Real), (0 : Real)) := by
  have hp : hash ((0 : Real), (0 : Real)) = 0 :=
    hash_eq_zero_of_small _ (by norm_num) (by norm_num) (by norm_num) (by norm_num)
  have hq : hash ((4 : Real), (0 : Real)) = 0 :=
    hash_eq_zero_of_small _ (by norm_num) (by norm_num) (by norm_num) (by norm_num)
  have hlen2 : vec2_len (vec2_sub ((2 : Real), (0 : Real)) ((0 : Real), (0 : Real))) = 2 := by
    rw [show vec2_sub ((2 : Real), (0 : Real)) ((0 : Real), (0 : Real)) =
      (((2 : Real), (0 : Real)) : Vec2) by unfold vec2_sub; norm_num]
    exact vec2_len_axis 2 (by norm_num)
  refine ⟨?_, ?_, ?_, ?_, ?_⟩
  · have h0 : hashAt [((0 : Real), (0 : Real)), ((4 : Real), (0 : Real))] 0 = 0 := by
      unfold hashAt
      rw [List.getD_cons_zero]
      exact hp
    have h1 : hashAt [((0 : Real), (0 : Real)), ((4 : Real), (0 : Real))] 1 = 0 := by
      unfold hashAt
      rw [List.getD_cons_succ, List.getD_cons_zero]
      exact hq
    unfold bucketOf
    simp only [List.length_cons, List.length_nil]
    rw [show List.range 2 = [0, 1] by rfl]
    simp only [List.filter_cons, List.filter_nil, h0, h1]
    norm_num
  · simp only [bucket_cohesion, List.foldl, List.getD_cons_zero, List.getD_cons_succ,
      vec2_add, vec2_scale, default_vec2, List.length_cons, List.length_nil]
    norm_num
  · unfold cohForce vec2_normalized_safe
    rw [hlen2]
    rw [if_neg (by norm_num)]
    unfold vec2_sub vec2_scale
    norm_num
  · unfold cohForceSpec vec2_normalized_safe
    rw [hlen2]
    rw [if_neg (by norm_num), if_neg (by norm_num)]
    unfold clampR
    rw [if_neg (by norm_num), if_neg (by norm_num)]
    unfold vec2_sub vec2_scale
    norm_num
  · intro h
    have := congrArg Prod.fst h
    norm_num at this

/-- C5 amended: the cohesion force added in the blend is zero when the
centroid coincides with the agent position, and otherwise equals the unit
vector toward the centroid scaled by COHESION_WEIGHT alone — there is no
clamp(1/dist) factor. -/
theorem cohesion_force_formula (Wc : Real) (c p : Vec2) :
    (vec2_sub c p = ((0 : Real), (0 : Real)) →
      cohForce Wc c p = ((0 : Real), (0 : Real))) ∧
    (vec2_sub c p ≠ ((0 : Real), (0 : Real)) →
      cohForce Wc c p =
        vec2_scale (vec2_scale (vec2_sub c p) (1 / vec2_len (vec2_sub c p))) Wc ∧
      vec2_len (cohForce Wc c p) = |Wc|) := by
  constructor
  · intro h
    unfold cohForce vec2_normalized_safe
    rw [if_pos ((vec2_len_eq_zero_iff _).mpr h)]
    unfold vec2_scale
    norm_num
  · intro h
    have hl : 0 < vec2_len (vec2_sub c p) := vec2_len_pos_of_ne _ h
    have heq : cohForce Wc c p =
        vec2_scale (vec2_scale (vec2_sub c p) (1 / vec2_len (vec2_sub c p))) Wc := by
      unfold cohForce vec2_normalized_safe vec2_scale
      rw [if_neg (ne_of_gt hl)]
      simp [div_eq_mul_inv, one_div]
    refine ⟨heq, ?_⟩
    rw [heq, vec2_len_scale, vec2_len_scale,
      abs_of_pos (one_div_pos.mpr hl),
      one_div_mul_cancel (ne_of_gt hl), mul_one]

/-- C5 witness: with weight 2, centroid (3, 0) and agent at the origin,
the cohesion force is the unit vector (1, 0) scaled by 2, of length 2. -/
theorem cohesion_force_formula_witness :
    cohForce 2 ((3 : Real), (0 : Real)) ((0 : Real), (0 : Real)) =
      vec2_scale
        (vec2_scale (vec2_sub ((3 : Real), (0 : Real)) ((0 : Real), (0 : Real)))
          (1 / vec2_len (vec2_sub ((3 : Real), (0 : Real)) ((0 : Real), (0 : Real))))) 2 ∧
    vec2_len (cohForce 2 ((3 : Real), (0 : Real)) ((0 : Real), (0 : Real))) = |(2 : Real)| := by
  have h := (cohesion_force_formula 2 ((3 : Real), (0 : Real))
    ((0 : Real), (0 : Real))).2 (by
      unfold vec2_sub
      intro hc
      have := congrArg Prod.fst hc
      norm_num at this)
  exact h

theorem mem_bucketOf (pos : List Vec2) (i h : Nat) :
    i ∈ bucketOf pos h ↔ i < pos.length ∧ hashAt pos i = h := by
  unfold bucketOf
  rw [List.mem_filter, List.mem_range]
  simp

/-- C7: the cell hash is a deterministic function of the position; two
positions with equal floored cell coordinates hash identically and their
agents land in a common bucket; every agent index lies in exactly one
bucket. -/
theorem hash_and_bucket_determinism (pos : List Vec2) :
    (∀ p q : Vec2, p = q → hash p = hash q) ∧
    (∀ i j : Nat, i < pos.length → j < pos.length →
      ⌊(pos.getD i default).1 / CELL_SIZE⌋ = ⌊(pos.getD j default).1 / CELL_SIZE⌋ →
      ⌊(pos.getD i default).2 / CELL_SIZE⌋ = ⌊(pos.getD j default).2 / CELL_SIZE⌋ →
      ∃ h : Nat, i ∈ bucketOf pos h ∧ j ∈ bucketOf pos h) ∧
    (∀ i : Nat, i < pos.length → ∃! h : Nat, i ∈ bucketOf pos h) := by
  refine ⟨?_, ?_, ?_⟩
  · intro p q h
    rw [h]
  · intro i j hi hj hx hy
    have hh : hashAt pos i = hashAt pos j := by
      unfold hashAt hash
      rw [hx, hy]
    refine ⟨hashAt pos i, ?_, ?_⟩
    · exact (mem_bucketOf pos i _).mpr ⟨hi, rfl⟩
    · exact (mem_bucketOf pos j _).mpr ⟨hj, hh.symm⟩
  · intro i hi
    refine ⟨hashAt pos i, (mem_bucketOf pos i _).mpr ⟨hi, rfl⟩, ?_⟩
    intro h hmem
    exact (((mem_bucketOf pos i h).mp hmem).2).symm

/-- C7 witness: agents at (0, 0) and (50, 50) share cell (0, 0) and land
in a common bucket; identical positions hash identically; agent 0 lies in
exactly one bucket. -/
theorem hash_and_bucket_determinism_witness :
    hash ((1 : Real), (2 : Real)) = hash ((1 : Real), (2 : Real)) ∧
    (∃ h : Nat,
      0 ∈ bucketOf [((0 : Real), (0 : Real)), ((50 : Real), (50 : Real))] h ∧
      1 ∈ bucketOf [((0 : Real), (0 : Real)), ((50 : Real), (50 : Real))] h) ∧
    (∃! h : Nat, 0 ∈ bucketOf [((0 : Real), (0 : Real)), ((50 : Real), (50 : Real))] h) := by
  have t := hash_and_bucket_determinism
    [((0 : Real), (0 : Real)), ((50 : Real), (50 : Real))]
  have e0 : ⌊(0 : Real) / CELL_SIZE⌋ = 0 := by
    unfold CELL_SIZE
    norm_num
  have e50 : ⌊(50 : Real) / CELL_SIZE⌋ = 0 := by
    unfold CELL_SIZE
    rw [Int.floor_eq_zero_iff]
    constructor <;> norm_num
  refine ⟨t.1 _ _ rfl, ?_, t.2.2 0 (by norm_num)⟩
  refine t.2.1 0 1 (by norm_num) (by norm_num) ?_ ?_
  · simp only [List.getD_cons_zero, List.getD_cons_succ]
    rw [e0, e50]
  · simp only [List.getD_cons_zero, List.getD_cons_succ]
    rw [e0, e50]

/-! Lemmas about the nearest-neighbor loop of bucket_separation. -/

theorem nearestLoop_snd_le (pos : List Vec2) (i : Nat) :
    ∀ (mem : List Nat) (acc : Nat × Real),
      (nearestLoop pos i mem acc).2 ≤ acc.2 := by
  intro mem
  induction mem with
  | nil => intro acc; exact le_refl _
  | cons j rest ih =>
    intro acc
    unfold nearestLoop
    by_cases hji : j = i
    · rw [if_pos hji]; exact ih acc
    · rw [if_neg hji]
      by_cases hd : vec2_len (vec2_sub (pos.getD i default) (pos.getD j default)) < acc.2
      · rw [if_pos hd]
        exact le_trans (ih _) (le_of_lt hd)
      · rw [if_neg hd]; exact ih acc

theorem nearestLoop_le_dist (pos : List Vec2) (i : Nat) :
    ∀ (mem : List Nat) (acc : Nat × Real) (j : Nat), j ∈ mem → j ≠ i →
      (nearestLoop pos i mem acc).2 ≤
        vec2_len (vec2_sub (pos.getD i default) (pos.getD j default)) := by
  intro mem
  induction mem with
  | nil => intro acc j hj; exact absurd hj (List.not_mem_nil j)
  | cons k rest ih =>
    intro acc j hj hji
    rcases List.mem_cons.mp hj with hjk | hjr
    · subst hjk
      unfold nearestLoop
      rw [if_neg hji]
      by_cases hd : vec2_len (vec2_sub (pos.getD i default) (pos.getD j default)) < acc.2
      · rw [if_pos hd]
        exact nearestLoop_snd_le pos i rest _
      · rw [if_neg hd]
        exact le_trans (nearestLoop_snd_le pos i rest acc) (not_lt.mp hd)
    · unfold nearestLoop
      by_cases hki : k = i
      · rw [if_pos hki]; exact ih acc j hjr hji
      · rw [if_neg hki]
        by_cases hd : vec2_len (vec2_sub (pos.getD i default) (pos.getD k default)) < acc.2
        · rw [if_pos hd]; exact ih _ j hjr hji
        · rw [if_neg hd]; exact ih acc j hjr hji

theorem nearestLoop_invariant (pos : List Vec2) (i : Nat) :
    ∀ (mem : List Nat) (acc : Nat × Real),
      (acc.2 = F32_MAX ∨
        acc.2 = vec2_len (vec2_sub (pos.getD i default) (pos.getD acc.1 default))) →
      ((nearestLoop pos i mem acc).2 = F32_MAX ∨
        (nearestLoop pos i mem acc).2 =
          vec2_len (vec2_sub (pos.getD i default)
            (pos.getD (nearestLoop pos i mem acc).1 default))) := by
  intro mem
  induction mem with
  | nil => intro acc h; exact h
  | cons k rest ih =>
    intro acc h
    unfold nearestLoop
    by_cases hki : k = i
    · rw [if_pos hki]; exact ih acc h
    · rw [if_neg hki]
      by_cases hd : vec2_len (vec2_sub (pos.getD i default) (pos.getD k default)) < acc.2
      · rw [if_pos hd]
        exact ih _ (Or.inr rfl)
      · rw [if_neg hd]; exact ih acc h

theorem F32_MAX_pos : (0 : Real) < F32_MAX := by
  unfold F32_MAX
  norm_num

/-- C10: if some other member of the bucket sits at exactly the same
position as member i, the minimum distance found by bucket_separation is
exactly 0, and the separation stored for i is exactly the zero vector:
the safe normalization returns zero and the 1/distance scaling branch is
skipped, so no division by zero happens. -/
theorem separation_zero_at_coincident (pos : List Vec2) (mem : List Nat)
    (i j : Nat) (hi : i ∈ mem) (hj : j ∈ mem) (hne : j ≠ i)
    (hsame : pos.getD j default = pos.getD i default) :
    (nearestFold pos i mem).2 = 0 ∧
    separationOf pos mem i = ((0 : Real), (0 : Real)) := by
  have hdz : vec2_len (vec2_sub (pos.getD i default) (pos.getD j default)) = 0 := by
    rw [hsame]
    refine (vec2_len_eq_zero_iff _).mpr ?_
    unfold vec2_sub
    norm_num
  have hle : (nearestFold pos i mem).2 ≤ 0 := by
    have := nearestLoop_le_dist pos i mem (0, F32_MAX) j hj hne
    rw [hdz] at this
    exact this
  have hinv := nearestLoop_invariant pos i mem (0, F32_MAX) (Or.inl rfl)
  have hzero : (nearestFold pos i mem).2 = 0 := by
    rcases hinv with hmax | hdist
    · exfalso
      unfold nearestFold at hle
      rw [hmax] at hle
      exact absurd (lt_of_lt_of_le F32_MAX_pos hle) (lt_irrefl 0)
    · unfold nearestFold at hle ⊢
      rw [hdist] at hle ⊢
      exact le_antisymm hle (vec2_len_nonneg _)
  refine ⟨hzero, ?_⟩
  have hnear : vec2_len (vec2_sub (pos.getD i default)
      (pos.getD (nearestFold pos i mem).1 default)) = 0 := by
    rcases hinv with hmax | hdist
    · exfalso
      unfold nearestFold at hzero
      rw [hmax] at hzero
      exact absurd hzero (ne_of_gt F32_MAX_pos)
    · unfold nearestFold at hzero ⊢
      rw [← hdist]
      exact hzero
  unfold separationOf
  rw [if_neg (by rw [hzero]; exact fun hc => hc rfl)]
  unfold vec2_normalized_safe
  rw [if_pos hnear]

/-- C10 witness: two coincident agents at (5, 5); the separation computed
for agent 0 is exactly the zero vector and the minimum distance is 0. -/
theorem separation_zero_at_coincident_witness :
    (nearestFold [((5 : Real), (5 : Real)), ((5 : Real), (5 : Real))] 0 [0, 1]).2 = 0 ∧
    separationOf [((5 : Real), (5 : Real)), ((5 : Real), (5 : Real))] [0, 1] 0 =
      ((0 : Real), (0 : Real)) :=
  separation_zero_at_coincident
    [((5 : Real), (5 : Real)), ((5 : Real), (5 : Real))] [0, 1] 0 1
    (by simp) (by simp) (by norm_num) rfl

theorem hash_pair (a b : Real) :
    hash ((a, b) : Vec2) =
      (((f2u32 ((⌊a / CELL_SIZE⌋ : Int) : Real)) * 73856093 % 2 ^ 32) ^^^
        ((f2u32 ((⌊b / CELL_SIZE⌋ : Int) : Real)) * 19349663 % 2 ^ 32)) %
        AGENT_COUNT := rfl

theorem hash_at_200_0 : hash ((200 : Real), (0 : Real)) = 186 := by
  have e200 : ⌊(200 : Real) / CELL_SIZE⌋ = 2 := by
    unfold CELL_SIZE
    norm_num
  have e0 : ⌊(0 : Real) / CELL_SIZE⌋ = 0 := by
    unfold CELL_SIZE
    norm_num
  have hf2 : f2u32 (((2 : Int) : Real)) = 2 := by
    unfold f2u32
    rw [if_neg (by norm_num)]
    rw [show ⌊((2 : Int) : Real)⌋ = 2 by norm_num]
    rw [show Int.toNat 2 = 2 from rfl]
    norm_num
  have hf0 : f2u32 (((0 : Int) : Real)) = 0 := by
    unfold f2u32
    rw [if_neg (by norm_num)]
    norm_num
  rw [hash_pair, e200, e0, hf2, hf0]
  simp only [show (2 : Nat) ^ 32 = 4294967296 by norm_num]
  norm_num [AGENT_COUNT]

/-- C2 failing input: two agents at (0, 0) and (200, 0) lie in different
cells, so the bucket of cell id 186 contains only agent 1.  With a single
member, the neighbor loop never runs: min_distance stays f32 MAX and
nearest_index stays at its sentinel 0, so bucket_separation computes the
separation from agent 0 — an agent of a DIFFERENT cell — and scales it by
clamp(1/f32 MAX, 0.01, 1000) = 0.01, giving (0.01, 0), not the zero
vector required by the claim and by the function's own comment. -/
theorem singleton_bucket_separation_nonzero :
    bucketOf [((0 : Real), (0 : Real)), ((200 : Real), (0 : Real))] 186 = [1] ∧
    nearestFold [((0 : Real), (0 : Real)), ((200 : Real), (0 : Real))]
      1 (bucketOf [((0 : Real), (0 : Real)), ((200 : Real), (0 : Real))] 186) =
      (0, F32_MAX) ∧
    separationOf [((0 : Real), (0 : Real)), ((200 : Real), (0 : Real))]
      (bucketOf [((0 : Real), (0 : Real)), ((200 : Real), (0 : Real))] 186) 1 =
      ((0.01 : Real), (0 : Real)) ∧
    ((0.01 : Real), (0 : Real)) ≠ ((0 : Real), (0 : Real)) := by
  have h0 : hashAt [((0 : Real), (0 : Real)), ((200 : Real), (0 : Real))] 0 = 0 := by
    unfold hashAt
    rw [List.getD_cons_zero]
    exact hash_eq_zero_of_small _ (by norm_num) (by norm_num) (by norm_num) (by norm_num)
  have h1 : hashAt [((0 : Real), (0 : Real)), ((200 : Real), (0 : Real))] 1 = 186 := by
    unfold hashAt
    rw [List.getD_cons_succ, List.getD_cons_zero]
    exact hash_at_200_0
  have hbucket : bucketOf [((0 : Real), (0 : Real)), ((200 : Real), (0 : Real))] 186 = [1] := by
    unfold bucketOf
    simp only [List.length_cons, List.length_nil]
    rw [show List.range 2 = [0, 1] by rfl]
    simp only [List.filter_cons, List.filter_nil, h0, h1]
    norm_num
  have hnf : nearestFold [((0 : Real), (0 : Real)), ((200 : Real), (0 : Real))] 1 [1] =
      (0, F32_MAX) := by
    unfold nearestFold
    simp [nearestLoop]
  have hlen : vec2_len (vec2_sub
      (List.getD [((0 : Real), (0 : Real)), ((200 : Real), (0 : Real))] 1 default)
      (List.getD [((0 : Real), (0 : Real)), ((200 : Real), (0 : Real))] 0 default)) = 200 := by
    simp only [List.getD_cons_zero, List.getD_cons_succ]
    rw [show vec2_sub (((200 : Real), (0 : Real)) : Vec2) ((0 : Real), (0 : Real)) =
      (((200 : Real), (0 : Real)) : Vec2) by unfold vec2_sub; norm_num]
    exact vec2_len_axis 200 (by norm_num)
  refine ⟨hbucket, by rw [hbucket]; exact hnf, ?_, ?_⟩
  · rw [hbucket]
    unfold separationOf
    rw [hnf]
    rw [if_pos (by exact fun hc => absurd hc (ne_of_gt F32_MAX_pos))]
    unfold vec2_normalized_safe
    rw [hlen]
    rw [if_neg (by norm_num)]
    have hclamp : clampR (1 / F32_MAX) 0.01 1000 = 0.01 := by
      unfold clampR F32_MAX
      rw [if_pos (by norm_num)]
    rw [hclamp]
    simp only [List.getD_cons_zero, List.getD_cons_succ]
    unfold vec2_sub vec2_scale
    norm_num
  · intro hc
    have := congrArg Prod.fst hc
    norm_num at this

/-! Structure lemmas for the blend loop and the bucket-update fold. -/

theorem blendBucketAux_fst (pos fwds : List Vec2) (Wa Wc Ws : Real)
    (centroid : Vec2) (sep : Nat → Vec2) :
    ∀ (mem : List Nat) (a : EVec2),
      (blendBucketAux pos fwds Wa Wc Ws centroid sep mem a).map Prod.fst = mem := by
  intro mem
  induction mem with
  | nil => intro a; rfl
  | cons i rest ih =>
    intro a
    simp only [blendBucketAux, List.map_cons]
    rw [ih]

theorem blendBucket_fst (pos fwds : List Vec2) (Wa Wc Ws : Real) (mem : List Nat) :
    (blendBucket pos fwds Wa Wc Ws mem).map Prod.fst = mem :=
  blendBucketAux_fst pos fwds Wa Wc Ws _ _ mem _

theorem blendBucketAux_out_eq (pos fwds : List Vec2) (Wa Wc Ws : Real)
    (centroid : Vec2) (sep : Nat → Vec2) :
    ∀ (mem : List Nat) (a : EVec2) (p : Nat × BlendRec),
      p ∈ blendBucketAux pos fwds Wa Wc Ws centroid sep mem a →
      p.2.out = enorm p.2.res := by
  intro mem
  induction mem with
  | nil => intro a p hp; exact absurd hp (List.not_mem_nil p)
  | cons i rest ih =>
    intro a p hp
    simp only [blendBucketAux] at hp
    rcases List.mem_cons.mp hp with hhead | htail
    · subst hhead; rfl
    · exact ih _ p htail

theorem blendBucket_out_eq (pos fwds : List Vec2) (Wa Wc Ws : Real)
    (mem : List Nat) (p : Nat × BlendRec)
    (hp : p ∈ blendBucket pos fwds Wa Wc Ws mem) : p.2.out = enorm p.2.res :=
  blendBucketAux_out_eq pos fwds Wa Wc Ws _ _ mem _ p hp

theorem bucketOf_nodup (pos : List Vec2) (h : Nat) : (bucketOf pos h).Nodup :=
  (List.nodup_range pos.length).filter _

theorem blendApply_length (upds : List (Nat × BlendRec)) :
    ∀ out : List EVec2,
      (upds.foldl (fun o p => o.set p.1 p.2.out) out).length = out.length := by
  induction upds with
  | nil => intro out; rfl
  | cons q rest ih =>
    intro out
    simp only [List.foldl_cons]
    rw [ih, List.length_set]

theorem blendApply_getD_not_mem (upds : List (Nat × BlendRec)) :
    ∀ (out : List EVec2) (i : Nat), i ∉ upds.map Prod.fst →
      (upds.foldl (fun o p => o.set p.1 p.2.out) out).getD i none =
        out.getD i none := by
  induction upds with
  | nil => intro out i _; rfl
  | cons q rest ih =>
    intro out i hni
    simp only [List.map_cons, List.mem_cons] at hni
    push_neg at hni
    simp only [List.foldl_cons]
    rw [ih _ i hni.2]
    rw [List.getD_eq_getElem?_getD, List.getD_eq_getElem?_getD,
      List.getElem?_set_ne (fun hc => hni.1 hc.symm)]

theorem blendApply_getD_mem (upds : List (Nat × BlendRec)) :
    ∀ (out : List EVec2) (i : Nat) (r : BlendRec),
      (upds.map Prod.fst).Nodup → (i, r) ∈ upds → i < out.length →
      (upds.foldl (fun o p => o.set p.1 p.2.out) out).getD i none = r.out := by
  induction upds with
  | nil => intro out i r _ hmem; exact absurd hmem (List.not_mem_nil _)
  | cons q rest ih =>
    intro out i r hnd hmem hlen
    rw [List.map_cons] at hnd
    have hnd2 := List.nodup_cons.mp hnd
    simp only [List.foldl_cons]
    rcases List.mem_cons.mp hmem with hhead | htail
    · have hiq : q.1 = i := by rw [← hhead]
      have hrq : q.2 = r := by rw [← hhead]
      have hni : i ∉ rest.map Prod.fst := by
        rw [← hiq]; exact hnd2.1
      rw [blendApply_getD_not_mem rest _ i hni]
      rw [List.getD_eq_getElem?_getD, hiq,
        List.getElem?_set_eq_of_lt _ hlen]
      rw [hrq]
      rfl
    · have hiq : i ≠ q.1 := by
        intro hc
        apply hnd2.1
        rw [← hc]
        exact List.mem_map.mpr ⟨(i, r), htail, rfl⟩
      exact ih _ i r hnd2.2 htail (by rw [List.length_set]; exact hlen)

/-- The value written for agent i by boid_system is the out field of the
blend record of i inside the bucket of its own cell: each agent is a
member of exactly one processed bucket, buckets with other keys never
touch its slot, and within its bucket its slot is written exactly once. -/
theorem boid_system_getD (pos fwds : List Vec2) (Wa Wc Ws : Real)
    (i : Nat) (rec : BlendRec) (hi : i < pos.length) (hf : i < fwds.length)
    (hmem : (i, rec) ∈ blendBucket pos fwds Wa Wc Ws (bucketOf pos (hashAt pos i))) :
    (boid_system pos fwds Wa Wc Ws).getD i none = rec.out := by
  have hnodup : ∀ h : Nat,
      ((blendBucket pos fwds Wa Wc Ws (bucketOf pos h)).map Prod.fst).Nodup := by
    intro h
    rw [blendBucket_fst]
    exact bucketOf_nodup pos h
  have hfst : ∀ h : Nat, i ∉ bucketOf pos h →
      i ∉ (blendBucket pos fwds Wa Wc Ws (bucketOf pos h)).map Prod.fst := by
    intro h hni
    rw [blendBucket_fst]
    exact hni
  have main : ∀ (keys : List Nat) (out : List EVec2), i < out.length →
      (hashAt pos i ∈ keys →
        (keys.foldl
          (fun o h =>
            (blendBucket pos fwds Wa Wc Ws (bucketOf pos h)).foldl
              (fun o2 p => o2.set p.1 p.2.out) o)
          out).getD i none = rec.out) ∧
      (hashAt pos i ∉ keys →
        (keys.foldl
          (fun o h =>
            (blendBucket pos fwds Wa Wc Ws (bucketOf pos h)).foldl
              (fun o2 p => o2.set p.1 p.2.out) o)
          out).getD i none = out.getD i none) := by
    intro keys
    induction keys with
    | nil =>
      intro out _
      exact ⟨fun hc => absurd hc (List.not_mem_nil _), fun _ => rfl⟩
    | cons h rest ih =>
      intro out hout
      have hstep : ∀ o : List EVec2,
          ((blendBucket pos fwds Wa Wc Ws (bucketOf pos h)).foldl
            (fun o2 p => o2.set p.1 p.2.out) o).length = o.length :=
        fun o => blendApply_length _ o
      have ihs := ih ((blendBucket pos fwds Wa Wc Ws (bucketOf pos h)).foldl
        (fun o2 p => o2.set p.1 p.2.out) out) (by rw [hstep]; exact hout)
      constructor
      · intro hinkeys
        simp only [List.foldl_cons]
        by_cases hh : h = hashAt pos i
        · have hstepval : ((blendBucket pos fwds Wa Wc Ws (bucketOf pos h)).foldl
              (fun o2 p => o2.set p.1 p.2.out) out).getD i none = rec.out := by
            subst hh
            exact blendApply_getD_mem _ out i rec (hnodup _) hmem hout
          by_cases hrest : hashAt pos i ∈ rest
          · exact ihs.1 hrest
          · rw [ihs.2 hrest, hstepval]
        · have hni : i ∉ bucketOf pos h := by
            intro hc
            exact hh (((mem_bucketOf pos i h).mp hc).2.symm ▸ rfl)
          have hrest : hashAt pos i ∈ rest := by
            rcases List.mem_cons.mp hinkeys with hc | hc
            · exact absurd hc.symm hh
            · exact hc
          exact ihs.1 hrest
      · intro hnotin
        simp only [List.mem_cons] at hnotin
        push_neg at hnotin
        simp only [List.foldl_cons]
        rw [ihs.2 hnotin.2]
        exact blendApply_getD_not_mem _ out i
          (hfst h (fun hc =>
            hnotin.1 (((mem_bucketOf pos i h).mp hc).2)))
  have hkey : hashAt pos i ∈ (pos.map hash).dedup := by
    rw [List.mem_dedup]
    refine List.mem_map.mpr ⟨pos.getD i default, ?_, rfl⟩
    rw [List.getD_eq_getElem?_getD, List.getElem?_eq_getElem hi]
    exact List.getElem_mem hi
  have hlen0 : i < (fwds.map some).length := by
    rw [List.length_map]
    exact hf
  unfold boid_system
  exact (main ((pos.map hash).dedup) (fwds.map some) hlen0).1 hkey

theorem enorm_eq_none_iff (a : EVec2) :
    enorm a = none ↔ a = none ∨ a = some (((0 : Real), (0 : Real)) : Vec2) := by
  cases a with
  | none => simp [enorm]
  | some v =>
    simp only [enorm]
    constructor
    · intro h
      right
      unfold vec2_normalized at h
      by_cases hl : vec2_len v = 0
      · exact congrArg some ((vec2_len_eq_zero_iff v).mp hl)
      · rw [if_neg hl] at h
        exact absurd h (by simp)
    · intro h
      rcases h with h | h
      · exact absurd h (by simp)
      · have hv : v = (((0 : Real), (0 : Real)) : Vec2) := by
          injection h
        rw [hv]
        exact vec2_normalized_zero

theorem vec2_len_pair (a b c : Real) (h : a ^ 2 + b ^ 2 = c ^ 2) (hc : 0 ≤ c) :
    vec2_len ((a, b)) = c := by
  unfold vec2_len
  show Real.sqrt (a ^ 2 + b ^ 2) = c
  rw [h, Real.sqrt_sq hc]

/-- C1 (amended): after boid_system, each agent heading is the unsafe
normalization of its blended vector: a unit vector whenever the blended
vector is finite and nonzero, and a non-finite (NaN) vector — never the
zero vector — exactly when the blended vector is non-finite or exactly
zero.  The zero-heading fallback claimed by the spec does not exist at
this call site: systems.rs line 233 uses vec2_normalized, not
vec2_normalized_safe. -/
theorem boid_heading_unit_or_nonfinite (pos fwds : List Vec2) (Wa Wc Ws : Real)
    (i : Nat) (hi : i < pos.length) (hf : i < fwds.length) :
    ∃ rec : BlendRec,
      (i, rec) ∈ blendBucket pos fwds Wa Wc Ws (bucketOf pos (hashAt pos i)) ∧
      (boid_system pos fwds Wa Wc Ws).getD i none = enorm rec.res ∧
      (enorm rec.res = none ↔
        rec.res = none ∨ rec.res = some (((0 : Real), (0 : Real)) : Vec2)) ∧
      (∀ v : Vec2, rec.res = some v → v ≠ ((0 : Real), (0 : Real)) →
        ∃ u : Vec2, enorm rec.res = some u ∧ vec2_len u = 1) := by
  have himem : i ∈ (blendBucket pos fwds Wa Wc Ws
      (bucketOf pos (hashAt pos i))).map Prod.fst := by
    rw [blendBucket_fst]
    exact (mem_bucketOf pos i _).mpr ⟨hi, rfl⟩
  obtain ⟨p, hp, hp1⟩ := List.mem_map.mp himem
  have hpair : (i, p.2) = p := by
    rw [← hp1]
  refine ⟨p.2, by rw [hpair]; exact hp, ?_, enorm_eq_none_iff _, ?_⟩
  · rw [boid_system_getD pos fwds Wa Wc Ws i p.2 hi hf (by rw [hpair]; exact hp)]
    exact blendBucket_out_eq pos fwds Wa Wc Ws _ p hp
  · intro v hv hvne
    rw [hv]
    exact vec2_normalized_unit v hvne

/-- C1 witness: a lone agent at the origin with unit heading (1, 0) and
all weights 1 — its blend record exists and the stored heading is the
unsafe normalization of the blended vector. -/
theorem boid_heading_unit_or_nonfinite_witness :
    ∃ rec : BlendRec,
      (0, rec) ∈ blendBucket [((0 : Real), (0 : Real))] [((1 : Real), (0 : Real))] 1 1 1
        (bucketOf [((0 : Real), (0 : Real))]
          (hashAt [((0 : Real), (0 : Real))] 0)) ∧
      (boid_system [((0 : Real), (0 : Real))] [((1 : Real), (0 : Real))] 1 1 1).getD 0 none =
        enorm rec.res := by
  obtain ⟨rec, h1, h2, _, _⟩ :=
    boid_heading_unit_or_nonfinite [((0 : Real), (0 : Real))]
      [((1 : Real), (0 : Real))] 1 1 1 0 (by simp) (by simp)
  exact ⟨rec, h1, h2⟩

/-- C1 counterexample: agents at (0, 0) and (2, 0) share cell 0; with
headings both (1, 0) and weights ALIGNMENT = 1, COHESION = 1,
SEPARATION = 6, the blended vector of agent 0 is exactly (0, 0)
(heading (1,0) + cohesion (1,0) + separation (-3,0) + alignment (1,0)),
and the stored heading is the non-finite NaN vector (`none`), not the
zero vector of length 0 required by the claim. -/
theorem boid_zero_blend_gives_nan_counterexample :
    (boid_system [((0 : Real), (0 : Real)), ((2 : Real), (0 : Real))]
      [((1 : Real), (0 : Real)), ((1 : Real), (0 : Real))] 1 1 6).getD 0 none = none ∧
    (none : EVec2) ≠ some (((0 : Real), (0 : Real)) : Vec2) := by
  have h0 : hashAt [((0 : Real), (0 : Real)), ((2 : Real), (0 : Real))] 0 = 0 := by
    unfold hashAt
    rw [List.getD_cons_zero]
    exact hash_eq_zero_of_small _ (by norm_num) (by norm_num) (by norm_num) (by norm_num)
  have h1 : hashAt [((0 : Real), (0 : Real)), ((2 : Real), (0 : Real))] 1 = 0 := by
    unfold hashAt
    rw [List.getD_cons_succ, List.getD_cons_zero]
    exact hash_eq_zero_of_small _ (by norm_num) (by norm_num) (by norm_num) (by norm_num)
  have hbucket : bucketOf [((0 : Real), (0 : Real)), ((2 : Real), (0 : Real))] 0 = [0, 1] := by
    unfold bucketOf
    simp only [List.length_cons, List.length_nil]
    rw [show List.range 2 = [0, 1] by rfl]
    simp only [List.filter_cons, List.filter_nil, h0, h1]
    norm_num
  have halign : bucket_alignment [0, 1]
      [((1 : Real), (0 : Real)), ((1 : Real), (0 : Real))] =
      some ((1 : Real), (0 : Real)) := by
    have hsum : sumHeadings [0, 1] [((1 : Real), (0 : Real)), ((1 : Real), (0 : Real))] =
        ((2 : Real), (0 : Real)) := by
      simp only [sumHeadings, List.foldl, List.getD_cons_zero, List.getD_cons_succ,
        vec2_add, default_vec2]
      norm_num
    unfold bucket_alignment vec2_normalized
    rw [hsum, vec2_len_pair 2 0 2 (by norm_num) (by norm_num)]
    rw [if_neg (by norm_num)]
    unfold vec2_scale
    norm_num
  have hcoh : bucket_cohesion [0, 1]
      [((0 : Real), (0 : Real)), ((2 : Real), (0 : Real))] = ((1 : Real), (0 : Real)) := by
    simp only [bucket_cohesion, List.foldl, List.getD_cons_zero, List.getD_cons_succ,
      vec2_add, vec2_scale, default_vec2, List.length_cons, List.length_nil]
    norm_num
  have hsub01 : vec2_sub
      (List.getD [((0 : Real), (0 : Real)), ((2 : Real), (0 : Real))] 0 default)
      (List.getD [((0 : Real), (0 : Real)), ((2 : Real), (0 : Real))] 1 default) =
      ((-2 : Real), (0 : Real)) := by
    simp only [List.getD_cons_zero, List.getD_cons_succ]
    unfold vec2_sub
    norm_num
  have hlen01 : vec2_len (vec2_sub
      (List.getD [((0 : Real), (0 : Real)), ((2 : Real), (0 : Real))] 0 default)
      (List.getD [((0 : Real), (0 : Real)), ((2 : Real), (0 : Real))] 1 default)) = 2 := by
    rw [hsub01]
    exact vec2_len_pair (-2) 0 2 (by norm_num) (by norm_num)
  have h2F : (2 : Real) < F32_MAX := by
    unfold F32_MAX
    norm_num
  have hsubp : vec2_sub (((0 : Real), (0 : Real)) : Vec2) ((2 : Real), (0 : Real)) =
      ((-2 : Real), (0 : Real)) := by
    unfold vec2_sub
    norm_num
  have hlenp : vec2_len (((-2 : Real), (0 : Real)) : Vec2) = 2 :=
    vec2_len_pair (-2) 0 2 (by norm_num) (by norm_num)
  have hnf0 : nearestFold [((0 : Real), (0 : Real)), ((2 : Real), (0 : Real))] 0 [0, 1] =
      (1, 2) := by
    unfold nearestFold
    simp only [nearestLoop, List.getD_cons_zero, List.getD_cons_succ, hsubp, hlenp]
    norm_num [h2F]
  have hnf0a : (nearestFold [((0 : Real), (0 : Real)), ((2 : Real), (0 : Real))] 0 [0, 1]).1 = 1 := by
    rw [hnf0]
  have hnf0b : (nearestFold [((0 : Real), (0 : Real)), ((2 : Real), (0 : Real))] 0 [0, 1]).2 = 2 := by
    rw [hnf0]
  have hsep0 : separationOf [((0 : Real), (0 : Real)), ((2 : Real), (0 : Real))] [0, 1] 0 =
      ((-1 / 2 : Real), (0 : Real)) := by
    unfold separationOf
    rw [hnf0a, hnf0b]
    rw [if_pos (by norm_num : (2 : Real) ≠ 0)]
    rw [hsub01]
    unfold vec2_normalized_safe
    rw [vec2_len_pair (-2) 0 2 (by norm_num) (by norm_num)]
    rw [if_neg (by norm_num)]
    have hcl : clampR (1 / (2 : Real)) 0.01 1000 = 1 / 2 := by
      unfold clampR
      rw [if_neg (by norm_num), if_neg (by norm_num)]
    rw [hcl]
    unfold vec2_scale
    norm_num
  have hcohF : cohForce 1 ((1 : Real), (0 : Real)) ((0 : Real), (0 : Real)) =
      ((1 : Real), (0 : Real)) := by
    unfold cohForce
    rw [show vec2_sub (((1 : Real), (0 : Real)) : Vec2) ((0 : Real), (0 : Real)) =
      (((1 : Real), (0 : Real)) : Vec2) by unfold vec2_sub; norm_num]
    unfold vec2_normalized_safe
    rw [vec2_len_pair 1 0 1 (by norm_num) (by norm_num)]
    rw [if_neg (by norm_num)]
    unfold vec2_scale
    norm_num
  have himem : 0 ∈ (blendBucket
      [((0 : Real), (0 : Real)), ((2 : Real), (0 : Real))]
      [((1 : Real), (0 : Real)), ((1 : Real), (0 : Real))] 1 1 6
      (bucketOf [((0 : Real), (0 : Real)), ((2 : Real), (0 : Real))]
        (hashAt [((0 : Real), (0 : Real)), ((2 : Real), (0 : Real))] 0))).map
      Prod.fst := by
    rw [blendBucket_fst]
    exact (mem_bucketOf _ 0 _).mpr ⟨by simp, rfl⟩
  obtain ⟨p, hp, hp1⟩ := List.mem_map.mp himem
  have hpair : ((0 : Nat), p.2) = p := by rw [← hp1]
  have hout : (boid_system
      [((0 : Real), (0 : Real)), ((2 : Real), (0 : Real))]
      [((1 : Real), (0 : Real)), ((1 : Real), (0 : Real))] 1 1 6).getD 0 none =
      p.2.out :=
    boid_system_getD _ _ 1 1 6 0 p.2 (by simp) (by simp) (by rw [hpair]; exact hp)
  have houteq : p.2.out = enorm p.2.res :=
    blendBucket_out_eq _ _ 1 1 6 _ p hp
  rw [h0, hbucket] at hp
  unfold blendBucket at hp
  simp only [blendBucketAux, List.mem_cons, List.not_mem_nil, or_false] at hp
  rcases hp with hmem | hmem
  · have hrec : p = ((0 : Nat), {
        alignC := escale 1 (bucket_alignment [0, 1]
          [((1 : Real), (0 : Real)), ((1 : Real), (0 : Real))])
        res := eadd (some (vec2_add (vec2_add
            (List.getD [((1 : Real), (0 : Real)), ((1 : Real), (0 : Real))] 0 default)
            (cohForce 1
              (bucket_cohesion [0, 1]
                [((0 : Real), (0 : Real)), ((2 : Real), (0 : Real))])
              (List.getD [((0 : Real), (0 : Real)), ((2 : Real), (0 : Real))] 0 default)))
            (vec2_scale (separationOf
              [((0 : Real), (0 : Real)), ((2 : Real), (0 : Real))] [0, 1] 0) 6)))
          (escale 1 (bucket_alignment [0, 1]
            [((1 : Real), (0 : Real)), ((1 : Real), (0 : Real))]))
        out := enorm (eadd (some (vec2_add (vec2_add
            (List.getD [((1 : Real), (0 : Real)), ((1 : Real), (0 : Real))] 0 default)
            (cohForce 1
              (bucket_cohesion [0, 1]
                [((0 : Real), (0 : Real)), ((2 : Real), (0 : Real))])
              (List.getD [((0 : Real), (0 : Real)), ((2 : Real), (0 : Real))] 0 default)))
            (vec2_scale (separationOf
              [((0 : Real), (0 : Real)), ((2 : Real), (0 : Real))] [0, 1] 0) 6)))
          (escale 1 (bucket_alignment [0, 1]
            [((1 : Real), (0 : Real)), ((1 : Real), (0 : Real))]))) }) := hmem
    have hres : p.2.res = some (((0 : Real), (0 : Real)) : Vec2) := by
      rw [hrec]
      simp only [List.getD_cons_zero]
      rw [halign, hcoh, hsep0, hcohF]
      simp only [escale, eadd, vec2_scale, vec2_add]
      norm_num
    refine ⟨?_, by simp⟩
    rw [hout, houteq, hres]
    show vec2_normalized (((0 : Real), (0 : Real)) : Vec2) = none
    exact vec2_normalized_zero
  · exfalso
    rw [hmem] at hp1
    norm_num at hp1

/-- C4 failing input: two agents share bucket 0, with unit headings
(3/5, 4/5) and (3/5, -4/5), so the bucket unit average heading is (1, 0).
With ALIGNMENT_WEIGHT = 2 the claim says both members receive alignment
contribution 2 * (1, 0) = (2, 0); but the blend loop rescales the shared
cell_forwards entry in place at every member (systems.rs lines 227-231),
so the first member receives (2, 0) and the second (4, 0): the
contribution differs between members of one bucket and depends on the
iteration order. -/
theorem alignment_contribution_order_dependent :
    bucketOf [((0 : Real), (0 : Real)), ((0 : Real), (0 : Real))] 0 = [0, 1] ∧
    escale 2 (bucket_alignment [0, 1]
      [((3 / 5 : Real), (4 / 5 : Real)), ((3 / 5 : Real), (-4 / 5 : Real))]) =
      some ((2 : Real), (0 : Real)) ∧
    (blendBucket [((0 : Real), (0 : Real)), ((0 : Real), (0 : Real))]
        [((3 / 5 : Real), (4 / 5 : Real)), ((3 / 5 : Real), (-4 / 5 : Real))] 2 1 1
        [0, 1]).map (fun p => p.2.alignC) =
      [some ((2 : Real), (0 : Real)), some ((4 : Real), (0 : Real))] ∧
    some (((4 : Real), (0 : Real)) : Vec2) ≠ some (((2 : Real), (0 : Real)) : Vec2) := by
  have h00 : hash ((0 : Real), (0 : Real)) = 0 :=
    hash_eq_zero_of_small _ (by norm_num) (by norm_num) (by norm_num) (by norm_num)
  have h0 : hashAt [((0 : Real), (0 : Real)), ((0 : Real), (0 : Real))] 0 = 0 := by
    unfold hashAt
    rw [List.getD_cons_zero]
    exact h00
  have h1 : hashAt [((0 : Real), (0 : Real)), ((0 : Real), (0 : Real))] 1 = 0 := by
    unfold hashAt
    rw [List.getD_cons_succ, List.getD_cons_zero]
    exact h00
  have halign4 : bucket_alignment [0, 1]
      [((3 / 5 : Real), (4 / 5 : Real)), ((3 / 5 : Real), (-4 / 5 : Real))] =
      some ((1 : Real), (0 : Real)) := by
    have hsum : sumHeadings [0, 1]
        [((3 / 5 : Real), (4 / 5 : Real)), ((3 / 5 : Real), (-4 / 5 : Real))] =
        ((6 / 5 : Real), (0 : Real)) := by
      simp only [sumHeadings, List.foldl, List.getD_cons_zero, List.getD_cons_succ,
        vec2_add, default_vec2]
      norm_num
    unfold bucket_alignment vec2_normalized
    rw [hsum, vec2_len_pair (6 / 5) 0 (6 / 5) (by norm_num) (by norm_num)]
    rw [if_neg (by norm_num)]
    unfold vec2_scale
    norm_num
  refine ⟨?_, ?_, ?_, by simp⟩
  · unfold bucketOf
    simp only [List.length_cons, List.length_nil]
    rw [show List.range 2 = [0, 1] by rfl]
    simp only [List.filter_cons, List.filter_nil, h0, h1]
    norm_num
  · rw [halign4]
    simp only [escale, vec2_scale]
    norm_num
  · unfold blendBucket
    simp only [blendBucketAux, List.map_cons, List.map_nil]
    rw [halign4]
    simp only [escale, vec2_scale]
    norm_num

end Boids
